import Mathlib

/-!
# Memory-region model of the debugger (`MemoryRegions.cpp`, OpenBSD backend)

A shallow embedding of `MemoryRegions`: the published region list `regions_`,
the refresh operation `sync()`, the two `find_region` overloads and the
item-model accessors `data`, `index`, `rowCount`, `columnCount`.

Conventions of the embedding.
* Addresses (`edb::address_t`) and file offsets are natural numbers; the code
  only compares them, it never does arithmetic on them.
* `int` rows, columns and roles are integers.
* The symbol manager is external: `sync` is parametric in its state and in
  `load_symbol_file`, so that every call it issues can be observed.
* A provider call that fails does not return a list; `syncCall` is `sync` with
  such a call, and agrees with `sync` whenever the call returns.
* An out-of-range `regions_[i]` has no defined result; functions that can
  reach one return `Option`, with `none` standing for that access.
-/

namespace Edb

/-! ## Data model -/

/-- Modelled from the spec: the value type `MemoryRegion` (declared in
`MemoryRegion.h`, which is not among the sources).  The fields are the values
of the accessors the code calls: `start()`, `end()`, `base()` (file offset),
`name()` (backing file), `readable()`, `writable()`, `executable()`. -/
structure MemoryRegion where
  start : Nat
  end_ : Nat
  base : Nat
  name : String
  readable : Bool
  writable : Bool
  executable : Bool
  deriving DecidableEq, Repr

/-- Modelled from the spec: `MemoryRegion::contains(address)` (declared in
`MemoryRegion.h`, not among the sources): the half-open range test
`start <= address < end`. -/
def MemoryRegion.contains (r : MemoryRegion) (address : Nat) : Bool :=
  decide (r.start ≤ address) && decide (address < r.end_)

/-- The model object: its only data member is the published list `regions_`. -/
structure MemoryRegions where
  regions_ : List MemoryRegion
  deriving DecidableEq, Repr

/-- The part of `IDebuggerCore` that `sync()` uses: the list handed back by one
call of `memory_regions()`.  Its C++ type is `QList<MemoryRegion>`; the call has
no other result. -/
structure IDebuggerCore where
  memory_regions : List MemoryRegion
  deriving DecidableEq, Repr

/-- What one `sync()` leaves behind: the model, the symbol manager and the
lines written to `qDebug()`. -/
structure SyncResult (σ : Type) where
  model : MemoryRegions
  symbols : σ
  debug : List String

/-! ## `clear` and `sync` -/

/-- Method `MemoryRegions::clear()`. -/
def clear (_self : MemoryRegions) : MemoryRegions :=
  { regions_ := [] }

/-- The `Q_FOREACH` loop of `sync()`: for each region in list order, the three
nested tests and the call of `load_symbol_file(region.name(), region.start())`. -/
def syncLoop {σ : Type} (load_symbol_file : σ → String → Nat → σ) :
    List MemoryRegion → σ → σ
  | [], sm => sm
  | region :: rest, sm =>
    let sm1 :=
      if !region.name.isEmpty then
        if region.base == 0 then
          if region.executable then
            load_symbol_file sm region.name region.start
          else sm
        else sm
      else sm
    syncLoop load_symbol_file rest sm1

/-- Method `MemoryRegions::sync()`.  `debugger_core` is the global pointer
`edb::v1::debugger_core` (`none` when it is null).  The local list `regions`
starts empty, is assigned only when a core is present, and is then swapped into
`regions_`; `reset()` only notifies the views. -/
def sync {σ : Type} (load_symbol_file : σ → String → Nat → σ)
    (_self : MemoryRegions) (debugger_core : Option IDebuggerCore) (sm : σ) :
    SyncResult σ :=
  match debugger_core with
  | some core =>
    let regions := core.memory_regions
    let sm1 := syncLoop load_symbol_file regions sm
    let debug :=
      if regions.isEmpty then ["[MemoryRegions] warning: empty memory map"] else []
    { model := { regions_ := regions }, symbols := sm1, debug := debug }
  | none =>
    { model := { regions_ := [] }, symbols := sm, debug := [] }

/-! ## `find_region` -/

/-- The loop of `MemoryRegions::find_region(address)`: the scan of `regions_` that returns
`true` at the first region containing `address`. -/
def find_regionLoop (address : Nat) : List MemoryRegion → Bool
  | [] => false
  | i :: rest => if i.contains address then true else find_regionLoop address rest

/-- Method `bool MemoryRegions::find_region(edb::address_t address) const`. -/
def find_region (self : MemoryRegions) (address : Nat) : Bool :=
  find_regionLoop address self.regions_

/-- The scan of the two-argument overload: on the first region containing
`address` it assigns that region to the out-parameter and returns `true`;
otherwise it returns `false` without touching the out-parameter.  The result is
the returned flag and the final value of the out-parameter. -/
def find_regionOutLoop (address : Nat) (region : MemoryRegion) :
    List MemoryRegion → Bool × MemoryRegion
  | [] => (false, region)
  | i :: rest =>
    if i.contains address then (true, i) else find_regionOutLoop address region rest

/-- Method `bool MemoryRegions::find_region(edb::address_t address, MemoryRegion &region) const`. -/
def find_regionOut (self : MemoryRegions) (address : Nat) (region : MemoryRegion) :
    Bool × MemoryRegion :=
  find_regionOutLoop address region self.regions_

/-- Two regions overlap when some address is contained in both. -/
def Overlap (r s : MemoryRegion) : Prop :=
  ∃ a, r.contains a = true ∧ s.contains a = true

/-- A region list is pairwise non-overlapping. -/
def NonOverlapping (l : List MemoryRegion) : Prop :=
  l.Pairwise (fun r s => ¬ Overlap r s)

/-- A region list is sorted by `start`. -/
def SortedByStart (l : List MemoryRegion) : Prop :=
  l.Pairwise (fun r s => r.start ≤ s.start)

/-- Method `int MemoryRegions::rowCount(const QModelIndex &parent) const`. -/
def rowCount (self : MemoryRegions) : Int :=
  self.regions_.length

/-- Method `int MemoryRegions::columnCount(const QModelIndex &parent) const`. -/
def columnCount (_self : MemoryRegions) : Int :=
  4

/-! ## `QString::arg`, `QVariant`, `QModelIndex` -/

/-- Qt `QChar::digitValue()` on the decimal digits `0`..`9`. -/
def digitValue (c : Char) : Option Nat :=
  if c.isDigit then some (c.toNat - 48) else none

/-- The digits of a place marker: one digit, or two when a second digit follows.
The result is the marker number and how many characters it took. -/
def digitsAt : List Char → Option (Nat × Nat)
  | [] => none
  | d1 :: rest =>
    match digitValue d1 with
    | none => none
    | some v1 =>
      match rest with
      | [] => some (v1, 1)
      | d2 :: _ =>
        match digitValue d2 with
        | some v2 => some (10 * v1 + v2, 2)
        | none => some (v1, 1)

/-- The place marker that starts right after a `%`: an optional `L`, then one
or two digits.  The result is the marker number and how many characters after
the `%` belong to it. -/
def escapeAt : List Char → Option (Nat × Nat)
  | [] => none
  | c :: rest =>
    if c = 'L' then
      match digitsAt rest with
      | some (k, len) => some (k, len + 1)
      | none => none
    else digitsAt (c :: rest)

/-- The lowest place-marker number occurring in a string, if there is one. -/
def findArgEscapes : List Char → Option Nat
  | [] => none
  | c :: cs =>
    let later := findArgEscapes cs
    if c = '%' then
      match escapeAt cs with
      | some (k, _) =>
        match later with
        | some m => some (min k m)
        | none => some k
      | none => later
    else later

/-- Replaces every place marker numbered `n` by `a`, copying everything else;
`skip` counts the characters of a marker just replaced that are still to be
dropped. -/
def replaceArgEscapes (n : Nat) (a : List Char) : Nat → List Char → List Char
  | _, [] => []
  | skip + 1, _ :: cs => replaceArgEscapes n a skip cs
  | 0, c :: cs =>
    if c = '%' then
      match escapeAt cs with
      | some (k, len) =>
        if k = n then a ++ replaceArgEscapes n a len cs
        else c :: replaceArgEscapes n a 0 cs
      | none => c :: replaceArgEscapes n a 0 cs
    else c :: replaceArgEscapes n a 0 cs

/-- Qt `QString::arg(char a)` with the default field width: the lowest-numbered
place marker (`%1`, `%2`, ..., `%99`) is replaced by `a`; a string without a
place marker is returned as it is. -/
def QString.arg (s : List Char) (a : Char) : List Char :=
  match findArgEscapes s with
  | some n => replaceArgEscapes n [a] 0 s
  | none => s

/-- The values of `QVariant` that `data()` returns: the empty `QVariant()` or a
string. -/
inductive QVariant where
  | invalid
  | string (s : String)
  deriving DecidableEq, Repr

/-- Qt `QModelIndex`: row, column, the internal pointer (the position in `regions_`
of the region it points to) and whether it belongs to a model. -/
structure QModelIndex where
  row : Int
  column : Int
  internalPointer : Option Nat
  hasModel : Bool
  deriving DecidableEq, Repr

/-- The default-constructed `QModelIndex()`. -/
def QModelIndex.invalid : QModelIndex :=
  { row := -1, column := -1, internalPointer := none, hasModel := false }

/-- Qt `QModelIndex::isValid()`: `row >= 0 && column >= 0 && model != 0`. -/
def QModelIndex.isValid (i : QModelIndex) : Bool :=
  decide (0 ≤ i.row) && decide (0 ≤ i.column) && i.hasModel

/-- Qt `QAbstractItemModel::createIndex(row, column, ptr)`. -/
def createIndex (row column : Int) (ptr : Nat) : QModelIndex :=
  { row := row, column := column, internalPointer := some ptr, hasModel := true }

/-- The role `Qt::DisplayRole`. -/
def DisplayRole : Int := 0

/-! ## `data` and `index` -/

/-- Method `QVariant MemoryRegions::data(const QModelIndex &index, int role) const`.
`format_pointer` is `edb::v1::format_pointer`, which is defined outside the
sources.  The result is `none` when `regions_[index.row()]` is out of range. -/
def data (format_pointer : Nat → String) (self : MemoryRegions)
    (index : QModelIndex) (role : Int) : Option QVariant :=
  if index.isValid && role == DisplayRole then
    match self.regions_[index.row.toNat]? with
    | none => none
    | some region =>
      if index.column = 0 then
        some (QVariant.string (format_pointer region.start))
      else if index.column = 1 then
        some (QVariant.string (format_pointer region.end_))
      else if index.column = 2 then
        some (QVariant.string (String.mk
          (QString.arg
            (QString.arg
              (QString.arg "%1%2%3".toList (if region.readable then 'r' else '-'))
              (if region.writable then 'w' else '-'))
            (if region.executable then 'x' else '-'))))
      else if index.column = 3 then
        some (QVariant.string region.name)
      else some QVariant.invalid
  else some QVariant.invalid

/-- Method `QModelIndex MemoryRegions::index(int row, int column, const QModelIndex &parent) const`.
The result is `none` when `regions_[row]` is out of range (a negative `row`
that passed the first test). -/
def index (self : MemoryRegions) (row column : Int) : Option QModelIndex :=
  if row ≥ rowCount self ∨ column ≥ columnCount self then
    some QModelIndex.invalid
  else if row < 0 then none
  else some (createIndex row column row.toNat)

/-- Method `QModelIndex MemoryRegions::parent(const QModelIndex &index) const`. -/
def parent (_self : MemoryRegions) (_index : QModelIndex) : QModelIndex :=
  QModelIndex.invalid

/-- Modelled from the spec: the ways the provider call `memory_regions()` can
fail (the provider is not among the sources): the target has exited, the caller
lacks the rights to inspect it, or the OS interface did not answer. -/
inductive ProviderError where
  | NoSuchProcess
  | PermissionDenied
  | TransportError
  deriving DecidableEq, Repr

/-- Method `MemoryRegions::sync()` with a provider call that may fail.
`memory_regions()` returns its `QList<MemoryRegion>` by value, so a call that
fails does not return: it raises, and `sync()` has no `try`/`catch`.  Control
then leaves `sync()` at the assignment `regions = ...memory_regions()`, before
the `Q_FOREACH` loop, the warning, `qSwap` and `reset()`: `regions_` and the
symbol manager are as they were, and the error reaches the caller (second
component).  A call that returns runs the rest of the body. -/
def syncCall {σ : Type} (load_symbol_file : σ → String → Nat → σ)
    (self : MemoryRegions)
    (debugger_core : Option (Except ProviderError (List MemoryRegion))) (sm : σ) :
    SyncResult σ × Option ProviderError :=
  match debugger_core with
  | some call =>
    match call with
    | Except.error e =>
      ({ model := self, symbols := sm, debug := [] }, some e)
    | Except.ok regions =>
      let sm1 := syncLoop load_symbol_file regions sm
      let debug :=
        if regions.isEmpty then ["[MemoryRegions] warning: empty memory map"] else []
      ({ model := { regions_ := regions }, symbols := sm1, debug := debug }, none)
  | none =>
    ({ model := { regions_ := [] }, symbols := sm, debug := [] }, none)

/-- A symbol manager that only records the calls it receives, in order. -/
def recordLoad (calls : List (String × Nat)) (name : String) (address : Nat) :
    List (String × Nat) :=
  calls ++ [(name, address)]

/-- The module heuristic as a predicate: backing name non-empty, file offset
zero, executable. -/
def likelyModule (r : MemoryRegion) : Bool :=
  decide (r.name ≠ "") && decide (r.base = 0) && r.executable

/-- A sample address space: the text and data mappings of `/bin/app` and an
anonymous read-only page. -/
def sampleRegions : List MemoryRegion :=
  [ { start := 0x1000, end_ := 0x2000, base := 0, name := "/bin/app",
      readable := true, writable := false, executable := true },
    { start := 0x2000, end_ := 0x3000, base := 0x1000, name := "/bin/app",
      readable := true, writable := true, executable := false },
    { start := 0x5000, end_ := 0x6000, base := 0, name := "",
      readable := true, writable := false, executable := false } ]

/-! ## Lemmas on `sync` -/

theorem syncLoop_eq_foldl {σ : Type} (load : σ → String → Nat → σ)
    (l : List MemoryRegion) (sm : σ) :
    syncLoop load l sm =
      (l.filter likelyModule).foldl (fun s r => load s r.name r.start) sm := by
  induction l generalizing sm with
  | nil => rfl
  | cons r rest ih =>
    have hname : r.name.isEmpty = decide (r.name = "") := by
      rcases h : r.name.isEmpty with _ | _
      · have : ¬ r.name = "" := fun e => by
          have := (String.isEmpty_iff r.name).2 e
          simp [h] at this
        simp [this]
      · simp [(String.isEmpty_iff r.name).1 h]
    simp only [syncLoop, hname, List.filter, likelyModule]
    by_cases h1 : r.name = "" <;> by_cases h2 : r.base = 0 <;>
      cases h3 : r.executable <;>
      simp [h1, h2, ih]

theorem foldl_recordLoad (l : List MemoryRegion) (calls : List (String × Nat)) :
    l.foldl (fun s r => recordLoad s r.name r.start) calls =
      calls ++ l.map (fun r => (r.name, r.start)) := by
  induction l generalizing calls with
  | nil => simp
  | cons r rest ih =>
    simp only [List.foldl, List.map]
    rw [ih]
    simp [recordLoad]

theorem sync_model_some {σ : Type} (load : σ → String → Nat → σ)
    (self : MemoryRegions) (core : IDebuggerCore) (sm : σ) :
    (sync load self (some core) sm).model.regions_ = core.memory_regions := rfl

theorem syncCall_ok {σ : Type} (load : σ → String → Nat → σ)
    (self : MemoryRegions) (regions : List MemoryRegion) (sm : σ) :
    syncCall load self (some (Except.ok regions)) sm =
      (sync load self (some ⟨regions⟩) sm, none) := rfl

theorem syncCall_none {σ : Type} (load : σ → String → Nat → σ)
    (self : MemoryRegions) (sm : σ) :
    syncCall load self none sm = (sync load self none sm, none) := rfl

/-! ## Lemmas on `find_region` -/

theorem contains_iff (r : MemoryRegion) (a : Nat) :
    r.contains a = true ↔ r.start ≤ a ∧ a < r.end_ := by
  simp [MemoryRegion.contains]

theorem find_regionOutLoop_find (a : Nat) (out : MemoryRegion) (l : List MemoryRegion) :
    find_regionOutLoop a out l =
      match l.find? (fun r => r.contains a) with
      | some r => (true, r)
      | none => (false, out) := by
  induction l with
  | nil => rfl
  | cons i rest ih =>
    cases h : i.contains a <;> simp [find_regionOutLoop, List.find?, h, ih]

theorem find_regionLoop_find (a : Nat) (l : List MemoryRegion) :
    find_regionLoop a l = (l.find? (fun r => r.contains a)).isSome := by
  induction l with
  | nil => rfl
  | cons i rest ih =>
    cases h : i.contains a <;> simp [find_regionLoop, List.find?, h, ih]

theorem find_regionOutLoop_of_mem (a : Nat) (out : MemoryRegion) :
    ∀ (l : List MemoryRegion), NonOverlapping l → ∀ R ∈ l, R.contains a = true →
      find_regionOutLoop a out l = (true, R) := by
  intro l
  induction l with
  | nil => intro _ R hR; cases hR
  | cons i rest ih =>
    intro hl R hR hc
    have hl2 := List.pairwise_cons.1 hl
    cases hi : i.contains a with
    | true =>
      rcases List.mem_cons.1 hR with rfl | hmem
      · simp [find_regionOutLoop, hi]
      · exact absurd ⟨a, hi, hc⟩ (hl2.1 R hmem)
    | false =>
      rcases List.mem_cons.1 hR with rfl | hmem
      · rw [hi] at hc; cases hc
      · simp only [find_regionOutLoop, hi]
        exact ih hl2.2 R hmem hc

theorem find_regionOutLoop_of_not_mem (a : Nat) (out : MemoryRegion) :
    ∀ (l : List MemoryRegion), (∀ R ∈ l, R.contains a = false) →
      find_regionOutLoop a out l = (false, out) := by
  intro l
  induction l with
  | nil => intro _; rfl
  | cons i rest ih =>
    intro h
    have hi : i.contains a = false := h i (List.mem_cons_self _ _)
    simp only [find_regionOutLoop, hi]
    exact ih (fun R hR => h R (List.mem_cons_of_mem _ hR))

theorem find_regionLoop_eq_fst (a : Nat) (out : MemoryRegion) (l : List MemoryRegion) :
    find_regionLoop a l = (find_regionOutLoop a out l).1 := by
  induction l with
  | nil => rfl
  | cons i rest ih =>
    cases h : i.contains a <;> simp [find_regionLoop, find_regionOutLoop, h, ih]

/-! ## Lemmas on `data` and `index` -/

theorem permission_arg (r w x : Bool) :
    QString.arg
        (QString.arg
          (QString.arg "%1%2%3".toList (if r then 'r' else '-'))
          (if w then 'w' else '-'))
        (if x then 'x' else '-')
      = [if r then 'r' else '-', if w then 'w' else '-', if x then 'x' else '-'] := by
  cases r <;> cases w <;> cases x <;> rfl

theorem permission_chars_injective (r w x r2 w2 x2 : Bool)
    (h : String.mk [if r then 'r' else '-', if w then 'w' else '-',
            if x then 'x' else '-']
        = String.mk [if r2 then 'r' else '-', if w2 then 'w' else '-',
            if x2 then 'x' else '-']) :
    r = r2 ∧ w = w2 ∧ x = x2 := by
  revert h
  cases r <;> cases w <;> cases x <;> cases r2 <;> cases w2 <;> cases x2 <;> decide

theorem data_display {fp : Nat → String} (self : MemoryRegions) (idx : QModelIndex)
    (region : MemoryRegion) (hv : idx.isValid = true)
    (hr : self.regions_[idx.row.toNat]? = some region) :
    data fp self idx DisplayRole =
      if idx.column = 0 then some (QVariant.string (fp region.start))
      else if idx.column = 1 then some (QVariant.string (fp region.end_))
      else if idx.column = 2 then
        some (QVariant.string (String.mk
          [if region.readable then 'r' else '-',
           if region.writable then 'w' else '-',
           if region.executable then 'x' else '-']))
      else if idx.column = 3 then some (QVariant.string region.name)
      else some QVariant.invalid := by
  simp only [data, hv, hr, permission_arg]
  simp

theorem index_in_range (self : MemoryRegions) (row : Nat) (column : Int)
    (h : row < self.regions_.length) (hc : column < 4) :
    index self row column = some (createIndex row column row) := by
  have h1 : ¬ ((row : Int) ≥ rowCount self ∨ column ≥ columnCount self) := by
    simp only [rowCount, columnCount]
    omega
  have h2 : ¬ ((row : Int) < 0) := by omega
  simp [index, h1, h2]

theorem sampleRegions_nonOverlapping : NonOverlapping sampleRegions := by
  unfold NonOverlapping sampleRegions
  simp only [List.pairwise_cons, List.mem_cons, List.mem_singleton, Overlap,
    contains_iff, forall_eq_or_imp, forall_eq, List.not_mem_nil, List.Pairwise.nil]
  refine ⟨⟨?_, ?_, ?_⟩, ⟨?_, ?_⟩, ?_, ?_⟩ <;> first | trivial | (rintro ⟨a, h1, h2⟩; omega) | (intro _ h; cases h)

theorem sampleRegions_sorted : SortedByStart sampleRegions := by
  unfold SortedByStart sampleRegions
  simp

/-! ## Claims on `sync` -/

/-- C1: with a debugger core present, the symbol-load calls issued by `sync()`
are, after the calls made earlier and in list order, exactly one
`load_symbol_file(name, start)` for each region returned by the provider whose
name is non-empty, whose file offset is 0 and which is executable, and none for
any other region; a region `/bin/app` at offset 0 and executable gives one load
with path `/bin/app`, and the same path at offset 0x1000 adds none. -/
theorem sync_load_calls (self : MemoryRegions) (core : IDebuggerCore)
    (calls : List (String × Nat)) :
    (sync recordLoad self (some core) calls).symbols =
        calls ++ (core.memory_regions.filter
          (fun r => decide (r.name ≠ "") && decide (r.base = 0) && r.executable)).map
            (fun r => (r.name, r.start))
      ∧ (∀ start end_ start2 end2 r w r2 w2 x2,
          (sync recordLoad self
            (some ⟨[⟨start, end_, 0, "/bin/app", r, w, true⟩,
                    ⟨start2, end2, 0x1000, "/bin/app", r2, w2, x2⟩]⟩) []).symbols
            = [("/bin/app", start)]) := by
  refine ⟨?_, ?_⟩
  · show syncLoop recordLoad core.memory_regions calls = _
    rw [syncLoop_eq_foldl, foldl_recordLoad]
    rfl
  · intro start end_ start2 end2 r w r2 w2 x2
    show syncLoop recordLoad _ [] = _
    rw [syncLoop_eq_foldl, foldl_recordLoad]
    simp [likelyModule, List.filter]

/-- C4: with no debugger core, `sync()` publishes the empty snapshot whatever
the previous snapshot was (`rowCount()` is 0 and both `find_region` overloads
are false at every address afterwards), leaves any symbol manager untouched and
issues no symbol-load call. -/
theorem sync_detached {σ : Type} (load : σ → String → Nat → σ)
    (self : MemoryRegions) (sm : σ) (calls : List (String × Nat))
    (a : Nat) (out : MemoryRegion) :
    (sync load self none sm).model.regions_ = []
      ∧ rowCount (sync load self none sm).model = 0
      ∧ find_region (sync load self none sm).model a = false
      ∧ find_regionOut (sync load self none sm).model a out = (false, out)
      ∧ (sync load self none sm).symbols = sm
      ∧ (sync recordLoad self none calls).symbols = calls := by
  refine ⟨rfl, rfl, rfl, rfl, rfl, rfl⟩

/-- C5: with a debugger core present, `sync()` publishes exactly the list the
provider returned, in the same order, whatever the previous snapshot was and
whatever `load_symbol_file` does; a second `sync()` right after it, against a
provider returning the same list, publishes an equal snapshot. -/
theorem sync_publishes_provider_list {σ : Type} (load load2 : σ → String → Nat → σ)
    (self : MemoryRegions) (core : IDebuggerCore) (sm : σ) :
    (sync load self (some core) sm).model.regions_ = core.memory_regions
      ∧ (sync load2 (sync load self (some core) sm).model (some core)
            (sync load self (some core) sm).symbols).model
          = (sync load self (some core) sm).model := by
  exact ⟨rfl, rfl⟩

/-- C6: when the list returned by the provider is pairwise non-overlapping and
sorted by `start`, the snapshot published by `sync()` is pairwise
non-overlapping and sorted by `start`. -/
theorem sync_preserves_order {σ : Type} (load : σ → String → Nat → σ)
    (self : MemoryRegions) (core : IDebuggerCore) (sm : σ)
    (hdisj : NonOverlapping core.memory_regions)
    (hsort : SortedByStart core.memory_regions) :
    NonOverlapping (sync load self (some core) sm).model.regions_
      ∧ SortedByStart (sync load self (some core) sm).model.regions_ := by
  rw [sync_model_some]
  exact ⟨hdisj, hsort⟩

/-- C7 (as stated, refuted): the provider returns the zero-length region
`[0x1000,0x1000)`; `sync()` publishes it. -/
theorem sync_publishes_zero_length :
    (sync recordLoad ⟨[]⟩ (some ⟨[⟨0x1000, 0x1000, 0, "", true, false, false⟩]⟩)
        []).model.regions_ = [⟨0x1000, 0x1000, 0, "", true, false, false⟩]
      ∧ ∃ r ∈ (sync recordLoad ⟨[]⟩
            (some ⟨[⟨0x1000, 0x1000, 0, "", true, false, false⟩]⟩) []).model.regions_,
          ¬ r.start < r.end_ := by
  refine ⟨rfl, ⟨0x1000, 0x1000, 0, "", true, false, false⟩, ?_, by decide⟩
  exact List.mem_singleton.2 rfl

/-- C7 (amended): `sync()` does not validate regions: a region is in the
published snapshot exactly when the provider returned it, so every published
region satisfies `start < end` exactly when every region returned by the
provider does. -/
theorem sync_start_lt_end_iff {σ : Type} (load : σ → String → Nat → σ)
    (self : MemoryRegions) (core : IDebuggerCore) (sm : σ) :
    (∀ r, r ∈ (sync load self (some core) sm).model.regions_ ↔
        r ∈ core.memory_regions)
      ∧ ((∀ r ∈ (sync load self (some core) sm).model.regions_, r.start < r.end_) ↔
        (∀ r ∈ core.memory_regions, r.start < r.end_)) := by
  rw [sync_model_some]
  exact ⟨fun _ => Iff.rfl, Iff.rfl⟩

/-! ## Claims on `find_region` -/

/-- C2: in a snapshot whose regions are pairwise non-overlapping, for every
region `R` of the snapshot and every address `a` with `R.start <= a < R.end`,
`find_region(a, out)` returns `true` and sets `out` to `R`; and for every address
covered by no region of the snapshot both overloads return `false`. -/
theorem find_region_left_inverse (self : MemoryRegions)
    (h : NonOverlapping self.regions_) :
    (∀ R ∈ self.regions_, ∀ a out, R.start ≤ a → a < R.end_ →
        find_regionOut self a out = (true, R))
      ∧ (∀ a out, (∀ R ∈ self.regions_, ¬ (R.start ≤ a ∧ a < R.end_)) →
        (find_regionOut self a out).1 = false ∧ find_region self a = false) := by
  refine ⟨?_, ?_⟩
  · intro R hR a out h1 h2
    exact find_regionOutLoop_of_mem a out _ h R hR ((contains_iff R a).2 ⟨h1, h2⟩)
  · intro a out hnone
    have hall : ∀ R ∈ self.regions_, R.contains a = false := by
      intro R hR
      cases hc : R.contains a with
      | false => rfl
      | true => exact absurd ((contains_iff R a).1 hc) (hnone R hR)
    have := find_regionOutLoop_of_not_mem a out _ hall
    refine ⟨?_, ?_⟩
    · show (find_regionOutLoop a out self.regions_).1 = false
      rw [this]
    · show find_regionLoop a self.regions_ = false
      rw [find_regionLoop_eq_fst a out, this]

/-- C10: for every snapshot and address the two `find_region` overloads return
the same boolean; when it is `true` the out-parameter holds the first region in
list order containing the address, when it is `false` the out-parameter is
unchanged. -/
theorem find_region_overloads_agree (self : MemoryRegions) (a : Nat)
    (out : MemoryRegion) :
    (find_regionOut self a out).1 = find_region self a
      ∧ find_regionOut self a out =
          (match self.regions_.find? (fun r => r.contains a) with
           | some r => (true, r)
           | none => (false, out)) := by
  unfold find_regionOut find_region
  refine ⟨(find_regionLoop_eq_fst a out _).symm, find_regionOutLoop_find a out _⟩

/-- Witness of C2 on the sample address space: address `0x2fff` is found in the
second region, address `0x4000` in none. -/
theorem find_region_left_inverse_witness :
    NonOverlapping (MemoryRegions.mk sampleRegions).regions_
      ∧ find_regionOut ⟨sampleRegions⟩ 0x2fff ⟨0, 0, 0, "", false, false, false⟩
          = (true, ⟨0x2000, 0x3000, 0x1000, "/bin/app", true, true, false⟩)
      ∧ find_region ⟨sampleRegions⟩ 0x4000 = false :=
  ⟨sampleRegions_nonOverlapping,
   (find_region_left_inverse ⟨sampleRegions⟩ sampleRegions_nonOverlapping).1
      ⟨0x2000, 0x3000, 0x1000, "/bin/app", true, true, false⟩
      (by simp [sampleRegions]) 0x2fff _ (by decide) (by decide),
   ((find_region_left_inverse ⟨sampleRegions⟩ sampleRegions_nonOverlapping).2
      0x4000 ⟨0, 0, 0, "", false, false, false⟩
      (by simp [sampleRegions])).2⟩

/-- Witness of C6 on the sample address space. -/
theorem sync_preserves_order_witness :
    NonOverlapping (IDebuggerCore.mk sampleRegions).memory_regions
      ∧ SortedByStart (IDebuggerCore.mk sampleRegions).memory_regions
      ∧ NonOverlapping (sync recordLoad ⟨[]⟩ (some ⟨sampleRegions⟩) []).model.regions_
      ∧ SortedByStart (sync recordLoad ⟨[]⟩ (some ⟨sampleRegions⟩) []).model.regions_ :=
  ⟨sampleRegions_nonOverlapping, sampleRegions_sorted,
   sync_preserves_order recordLoad ⟨[]⟩ ⟨sampleRegions⟩ []
     sampleRegions_nonOverlapping sampleRegions_sorted⟩

/-! ## Claims on the item model -/

/-- C8: for a valid index in column 2 whose row holds a region, `data()` with
the display role is the 3-character string whose characters are `r` or `-`
(readable), `w` or `-` (writable), `x` or `-` (executable); two regions with the
same string have the same three flags, so the 8 flag combinations give 8
distinct strings. -/
theorem data_permission_cell (fp : Nat → String) (self : MemoryRegions)
    (idx : QModelIndex) (region : MemoryRegion)
    (hv : idx.isValid = true) (hc : idx.column = 2)
    (hr : self.regions_[idx.row.toNat]? = some region) :
    data fp self idx DisplayRole =
        some (QVariant.string (String.mk
          [if region.readable then 'r' else '-',
           if region.writable then 'w' else '-',
           if region.executable then 'x' else '-']))
      ∧ (∀ (idx2 : QModelIndex) (region2 : MemoryRegion),
          idx2.isValid = true → idx2.column = 2 →
          self.regions_[idx2.row.toNat]? = some region2 →
          data fp self idx2 DisplayRole = data fp self idx DisplayRole →
          region2.readable = region.readable ∧ region2.writable = region.writable
            ∧ region2.executable = region.executable) := by
  have key : ∀ (i : QModelIndex) (g : MemoryRegion), i.isValid = true →
      i.column = 2 → self.regions_[i.row.toNat]? = some g →
      data fp self i DisplayRole =
        some (QVariant.string (String.mk
          [if g.readable then 'r' else '-',
           if g.writable then 'w' else '-',
           if g.executable then 'x' else '-'])) := by
    intro i g h1 h2 h3
    rw [data_display self i g h1 h3, h2]
    simp
  refine ⟨key idx region hv hc hr, ?_⟩
  intro idx2 region2 hv2 hc2 hr2 heq
  rw [key idx region hv hc hr, key idx2 region2 hv2 hc2 hr2] at heq
  have hs := QVariant.string.inj (Option.some.inj heq)
  exact permission_chars_injective _ _ _ _ _ _ hs

/-- Witness of C8: a read-only, non-executable region `[0x1000,0x2000)` gives
`r--`. -/
theorem data_permission_cell_witness :
    (createIndex 0 2 0).isValid = true
      ∧ (createIndex 0 2 0).column = 2
      ∧ (MemoryRegions.mk [⟨0x1000, 0x2000, 0, "", true, false, false⟩]).regions_[
            (createIndex 0 2 0).row.toNat]?
          = some ⟨0x1000, 0x2000, 0, "", true, false, false⟩
      ∧ data Nat.repr ⟨[⟨0x1000, 0x2000, 0, "", true, false, false⟩]⟩
          (createIndex 0 2 0) DisplayRole = some (QVariant.string "r--") :=
  ⟨rfl, rfl, rfl,
   (data_permission_cell Nat.repr ⟨[⟨0x1000, 0x2000, 0, "", true, false, false⟩]⟩
      (createIndex 0 2 0) ⟨0x1000, 0x2000, 0, "", true, false, false⟩ rfl rfl rfl).1⟩

/-- C9: for a snapshot of `n` regions, `rowCount()` is `n` and `columnCount()`
is 4; `index(row, column)` is the invalid index whenever `row >= n` or
`column >= 4`; for `0 <= row < n` and each column 0..3,
`data(index(row, column), DisplayRole)` is the formatted start, the formatted
end, the permission string and the backing name of the `row`-th region; any
other role, and any invalid index, gives the empty `QVariant`. -/
theorem item_model_cells (fp : Nat → String) (self : MemoryRegions) :
    rowCount self = self.regions_.length
      ∧ columnCount self = 4
      ∧ (∀ row column : Int, row ≥ self.regions_.length ∨ column ≥ 4 →
          index self row column = some QModelIndex.invalid)
      ∧ QModelIndex.invalid.isValid = false
      ∧ (∀ (row : Nat) (h : row < self.regions_.length),
          (index self row 0).bind (fun i => data fp self i DisplayRole)
              = some (QVariant.string (fp (self.regions_.get ⟨row, h⟩).start))
            ∧ (index self row 1).bind (fun i => data fp self i DisplayRole)
              = some (QVariant.string (fp (self.regions_.get ⟨row, h⟩).end_))
            ∧ (index self row 2).bind (fun i => data fp self i DisplayRole)
              = some (QVariant.string (String.mk
                  [if (self.regions_.get ⟨row, h⟩).readable then 'r' else '-',
                   if (self.regions_.get ⟨row, h⟩).writable then 'w' else '-',
                   if (self.regions_.get ⟨row, h⟩).executable then 'x' else '-']))
            ∧ (index self row 3).bind (fun i => data fp self i DisplayRole)
              = some (QVariant.string (self.regions_.get ⟨row, h⟩).name))
      ∧ (∀ (idx : QModelIndex) (role : Int),
          role ≠ DisplayRole ∨ idx.isValid = false →
          data fp self idx role = some QVariant.invalid) := by
  refine ⟨rfl, rfl, ?_, rfl, ?_, ?_⟩
  · intro row column h
    have : row ≥ rowCount self ∨ column ≥ columnCount self := h
    simp [index, this]
  · intro row h
    have hget : ∀ column : Int,
        self.regions_[(createIndex row column row).row.toNat]?
          = some (self.regions_.get ⟨row, h⟩) := by
      intro column
      simp [createIndex, List.getElem?_eq_getElem h]
    have hval : ∀ column : Int, 0 ≤ column →
        (createIndex row column row).isValid = true := by
      intro column hc
      simp [createIndex, QModelIndex.isValid, hc]
    refine ⟨?_, ?_, ?_, ?_⟩
    · rw [index_in_range self row 0 h (by decide), Option.bind,
        data_display self _ _ (hval 0 (by decide)) (hget 0)]
      simp [createIndex]
    · rw [index_in_range self row 1 h (by decide), Option.bind,
        data_display self _ _ (hval 1 (by decide)) (hget 1)]
      simp [createIndex]
    · rw [index_in_range self row 2 h (by decide), Option.bind,
        data_display self _ _ (hval 2 (by decide)) (hget 2)]
      simp [createIndex]
    · rw [index_in_range self row 3 h (by decide), Option.bind,
        data_display self _ _ (hval 3 (by decide)) (hget 3)]
      simp [createIndex]
  · intro idx role h
    rcases h with h | h
    · have : (role == DisplayRole) = false := by simpa using h
      simp [data, this]
    · simp [data, h]

/-- Witness of C9 on the sample address space: 3 rows, 4 columns, `index(3, 0)`
invalid, and cell (1, 3) is the backing name of the second region. -/
theorem item_model_cells_witness :
    rowCount ⟨sampleRegions⟩ = 3
      ∧ index ⟨sampleRegions⟩ 3 0 = some QModelIndex.invalid
      ∧ (index ⟨sampleRegions⟩ (1 : Nat) 3).bind
            (fun i => data Nat.repr ⟨sampleRegions⟩ i DisplayRole)
          = some (QVariant.string "/bin/app") :=
  ⟨(item_model_cells Nat.repr ⟨sampleRegions⟩).1,
   (item_model_cells Nat.repr ⟨sampleRegions⟩).2.2.1 3 0 (Or.inl (by decide)),
   ((item_model_cells Nat.repr ⟨sampleRegions⟩).2.2.2.2.1 1 (by decide)).2.2.2⟩

end Edb
